import Mathlib

/-!
# Verification of the ssoh health-history and escalation gate

Shallow embedding of `src/data_models.py` and `src/online_status.py`.

* `PingEvent`, `PingList` mirror the pydantic models.  Python `float`
  values (latency, percentages) are embedded as `ℚ`: every division the
  code performs has a small-integer numerator and denominator, so IEEE
  doubles represent exactly the values the claims compare against
  (e.g. `3/5 == 0.6` holds in Python).  `datetime` values are embedded as
  integer epoch seconds and uuid hex strings as `String`.
* File-system effects are embedded as an explicit `Store` state: one
  current file per target plus the list of timestamped backup files, and
  Python exceptions as `Except PyError`.
-/

/-- Target identity (IPv4 address), embedded as an opaque numeric id. -/
abbrev Ip := Nat

/-- One probe result (`PingEvent` in `data_models.py`): identifier,
timestamp, latency in ms, failure flag. -/
structure PingEvent where
  event_uuid : String
  timestamp : Int
  ping : ℚ
  failure : Bool
deriving DecidableEq, Repr

/-- `PingList` in `data_models.py`: the retained probe records of one
target. -/
structure PingList where
  pings : List PingEvent
  target : Ip
deriving DecidableEq, Repr

namespace PingList

/-- The `while len(self.pings) >= 5: self.pings.pop(0)` loop of
`add_ping_event`: drop records from the front until fewer than 5 remain. -/
def dropWhileFull (l : List PingEvent) : List PingEvent :=
  if 5 ≤ l.length then dropWhileFull l.tail else l
termination_by l.length
decreasing_by
  simp only [List.length_tail]
  omega

/-- `PingList.add_ping_event`: skip if a record with the same
`event_uuid` exists; otherwise sort the list with the constant key
`ping.timestamp` (the *new* record's timestamp, as in the source's
`key=lambda sorted_ping: ping.timestamp`), pop from the front while 5 or
more records are held, then append the new record.  Python's `list.sort`
is a stable sort by the key, embedded as a stable `mergeSort` whose
comparisons are exactly the key comparisons `ping.timestamp ≤
ping.timestamp`. -/
def add_ping_event (pl : PingList) (ping : PingEvent) : PingList :=
  if pl.pings.any fun existing => existing.event_uuid == ping.event_uuid then
    pl
  else
    let sorted := pl.pings.mergeSort fun _ _ => decide (ping.timestamp ≤ ping.timestamp)
    let trimmed := dropWhileFull sorted
    { pl with pings := trimmed ++ [ping] }

/-- `PingList.get_valid_percentage`: fraction of retained records with
`failure = false`; `1` on an empty list. -/
def get_valid_percentage (pl : PingList) : ℚ :=
  let valid_events := pl.pings.countP fun ping => !ping.failure
  if pl.pings.length = 0 then 1
  else (valid_events : ℚ) / (pl.pings.length : ℚ)

end PingList

namespace PingList

/-- The sort step of `add_ping_event` compares every pair of elements
with the same constant key, and a stable sort under an everywhere-true
comparison returns its input unchanged. -/
theorem mergeSort_const_key (t : Int) (l : List PingEvent) :
    l.mergeSort (fun _ _ => decide (t ≤ t)) = l := by
  apply List.mergeSort_of_sorted
  induction l with
  | nil => exact List.Pairwise.nil
  | cons a l ih => exact List.Pairwise.cons (fun b _ => by simp) ih

theorem dropWhileFull_eq (l : List PingEvent) :
    dropWhileFull l = if 5 ≤ l.length then l.drop (l.length - 4) else l := by
  induction l using dropWhileFull.induct with
  | case1 l h ih =>
    rw [dropWhileFull, if_pos h, ih]
    by_cases h5 : 5 ≤ l.tail.length
    · rw [if_pos h5, if_pos h, ← List.drop_one, List.drop_drop, List.length_drop]
      congr 1
      rw [List.length_tail] at h5
      omega
    · rw [if_pos h, if_neg h5, ← List.drop_one]
      have hlen : l.length = 5 := by
        rw [List.length_tail] at h5
        omega
      rw [hlen]
  | case2 l h =>
    rw [dropWhileFull, if_neg h, if_neg h]

theorem length_dropWhileFull_le (l : List PingEvent) :
    (dropWhileFull l).length ≤ min l.length 4 := by
  rw [dropWhileFull_eq]
  by_cases h : 5 ≤ l.length
  · rw [if_pos h, List.length_drop]
    omega
  · rw [if_neg h]
    omega

/-- Characterisation of `add_ping_event` when the new identifier is
fresh: the sort is the identity, eviction drops the oldest records from
the front, the new record is appended at the back. -/
theorem add_ping_event_of_fresh (pl : PingList) (e : PingEvent)
    (h : ∀ x ∈ pl.pings, x.event_uuid ≠ e.event_uuid) :
    (pl.add_ping_event e).pings =
      (if 5 ≤ pl.pings.length then pl.pings.drop (pl.pings.length - 4)
       else pl.pings) ++ [e] := by
  have hany : (pl.pings.any fun existing => existing.event_uuid == e.event_uuid) = false := by
    simp only [List.any_eq_false, beq_iff_eq]
    exact h
  rw [add_ping_event, if_neg (by rw [hany]; exact Bool.false_ne_true)]
  simp only [mergeSort_const_key, dropWhileFull_eq]

/-- `add_ping_event` with a duplicate identifier returns the list
unchanged. -/
theorem add_ping_event_of_dup (pl : PingList) (e : PingEvent)
    (h : ∃ x ∈ pl.pings, x.event_uuid = e.event_uuid) :
    pl.add_ping_event e = pl := by
  rw [add_ping_event, if_pos]
  simp only [List.any_eq_true, beq_iff_eq]
  exact h

/-- One call keeps the length within the capacity 5. -/
theorem add_ping_event_length_le (pl : PingList) (e : PingEvent)
    (h : pl.pings.length ≤ 5) :
    (pl.add_ping_event e).pings.length ≤ 5 := by
  by_cases hdup : ∃ x ∈ pl.pings, x.event_uuid = e.event_uuid
  · rw [add_ping_event_of_dup pl e hdup]
    exact h
  · push_neg at hdup
    rw [add_ping_event_of_fresh pl e hdup]
    by_cases h5 : 5 ≤ pl.pings.length
    · rw [if_pos h5]
      simp only [List.length_append, List.length_drop, List.length_cons, List.length_nil]
      omega
    · rw [if_neg h5]
      simp only [List.length_append, List.length_cons, List.length_nil]
      omega

/-- One call preserves pairwise-distinct identifiers. -/
theorem add_ping_event_pairwise (pl : PingList) (e : PingEvent)
    (h : pl.pings.Pairwise fun a b => a.event_uuid ≠ b.event_uuid) :
    (pl.add_ping_event e).pings.Pairwise fun a b => a.event_uuid ≠ b.event_uuid := by
  by_cases hdup : ∃ x ∈ pl.pings, x.event_uuid = e.event_uuid
  · rw [add_ping_event_of_dup pl e hdup]
    exact h
  · push_neg at hdup
    rw [add_ping_event_of_fresh pl e hdup]
    rw [List.pairwise_append]
    refine ⟨?_, List.pairwise_singleton _ _, ?_⟩
    · by_cases h5 : 5 ≤ pl.pings.length
      · rw [if_pos h5]
        exact h.sublist (List.drop_sublist _ _)
      · rw [if_neg h5]
        exact h
    · intro a ha b hb
      rw [List.mem_singleton] at hb
      subst hb
      apply hdup
      by_cases h5 : 5 ≤ pl.pings.length
      · rw [if_pos h5] at ha
        exact List.mem_of_mem_drop ha
      · rw [if_neg h5] at ha
        exact ha

theorem countP_bnot_add_countP (p : PingEvent → Bool) (l : List PingEvent) :
    l.countP (fun a => !p a) + l.countP p = l.length := by
  induction l with
  | nil => simp
  | cons a l ih =>
    rw [List.countP_cons, List.countP_cons, List.length_cons]
    by_cases h : p a
    · rw [if_pos h, if_neg (by rw [h]; exact Bool.false_ne_true), ← ih]
      omega
    · rw [if_neg h, if_pos (by rw [Bool.not_eq_true] at h; rw [h]; rfl), ← ih]
      omega

end PingList

/-- Content of the persisted file of one target: missing, present but
not valid JSON for a `PingList`, or a well-formed persisted `PingList`. -/
inductive FileContent where
  | absent
  | corrupt (raw : String)
  | good (pl : PingList)
deriving DecidableEq

/-- The file system as seen by the persistence layer: the current
`<ip>.json` file of every target, plus the timestamped backup files
`<ip>.json.<timestamp>` created by `shutil.move`. -/
structure Store where
  cur : Ip → FileContent
  backups : Ip → List (Int × FileContent)

/-- The Python exceptions the persistence layer raises or catches. -/
inductive PyError where
  | fileNotFound
  | valueError
deriving DecidableEq

/-- `open(filename)` followed by `model_validate_json`: raises
`FileNotFoundError` when the file is missing and `ValueError`
(pydantic's `ValidationError`) when its content is not a well-formed
persisted `PingList`. -/
def openAndParse (ip : Ip) (s : Store) : Except PyError PingList :=
  match s.cur ip with
  | .absent => .error .fileNotFound
  | .corrupt _ => .error .valueError
  | .good pl => .ok pl

/-- `shutil.move(filename, filename + "." + timestamp)`: the current
file of `ip` becomes a timestamped backup and the current slot empties. -/
def moveToBackup (ip : Ip) (now : Int) (s : Store) : Store :=
  { cur := fun j => if j = ip then .absent else s.cur j,
    backups := fun j => if j = ip then (now, s.cur ip) :: s.backups j else s.backups j }

/-- `PingList.load`: try to read and parse `<ip>.json`; on
`FileNotFoundError` return a fresh empty `PingList`; on `ValueError`
move the unreadable file to a timestamp-suffixed backup and return a
fresh empty `PingList`.  Both exception paths are caught in the source,
so `load` is total: it never propagates an error to the caller. -/
def load (ip : Ip) (now : Int) (s : Store) : PingList × Store :=
  match openAndParse ip s with
  | .ok pl => (pl, s)
  | .error .fileNotFound => ({ pings := [], target := ip }, s)
  | .error .valueError => ({ pings := [], target := ip }, moveToBackup ip now s)

/-- `PingList.save`: write the serialized `PingList` to
`<self.target>.json` (note: the *stored* target names the file). -/
def save (pl : PingList) (s : Store) : Store :=
  { s with cur := fun j => if j = pl.target then .good pl else s.cur j }

/-- `PingList.clear`: load the list, empty it, move the current file of
`ip` to a timestamped backup with `shutil.move`, then save the emptied
list.  `shutil.move` raises `FileNotFoundError` when `<ip>.json` does
not exist at that point — this exception is not caught in the source. -/
def clear (ip : Ip) (now : Int) (s : Store) : Except PyError Store :=
  let loaded := load ip now s
  let cleared : PingList := { loaded.1 with pings := [] }
  match loaded.2.cur ip with
  | .absent => .error .fileNotFound
  | _ => .ok (save cleared (moveToBackup ip now loaded.2))

/-- **C1.** For every sequence of `add_ping`/`add_ping_event` calls on a
`PingList`, the length of `pings` never exceeds 5 after any call, and
when a new record is appended while the list is at (or beyond) capacity,
the records evicted are the least-recently-inserted ones — the front of
the list, pure FIFO by insertion order — irrespective of the timestamp
values stored in the records. -/
theorem c1_capacity_and_fifo_eviction :
    (∀ (pl : PingList) (evs : List PingEvent), pl.pings.length ≤ 5 →
       (evs.foldl PingList.add_ping_event pl).pings.length ≤ 5)
  ∧ (∀ (pl : PingList) (e : PingEvent),
       (∀ x ∈ pl.pings, x.event_uuid ≠ e.event_uuid) → 5 ≤ pl.pings.length →
       (pl.add_ping_event e).pings = pl.pings.drop (pl.pings.length - 4) ++ [e])
  ∧ (∀ (pl : PingList) (e : PingEvent),
       (∀ x ∈ pl.pings, x.event_uuid ≠ e.event_uuid) → pl.pings.length < 5 →
       (pl.add_ping_event e).pings = pl.pings ++ [e]) := by
  refine ⟨?_, ?_, ?_⟩
  · intro pl evs
    induction evs generalizing pl with
    | nil => intro h; exact h
    | cons e evs ih =>
      intro h
      exact ih _ (PingList.add_ping_event_length_le pl e h)
  · intro pl e hfresh h5
    rw [PingList.add_ping_event_of_fresh pl e hfresh, if_pos h5]
  · intro pl e hfresh h5
    rw [PingList.add_ping_event_of_fresh pl e hfresh, if_neg (by omega)]

def c1ev (n : Nat) (t : Int) : PingEvent :=
  { event_uuid := toString n, timestamp := t, ping := 10, failure := false }

def c1plFive : PingList :=
  { pings := [c1ev 1 50, c1ev 2 40, c1ev 3 30, c1ev 4 20, c1ev 5 10], target := 7 }

theorem c1_capacity_and_fifo_eviction_witness :
    (([c1ev 6 0].foldl PingList.add_ping_event c1plFive).pings.length ≤ 5)
  ∧ ((c1plFive.add_ping_event (c1ev 6 0)).pings =
      c1plFive.pings.drop 1 ++ [c1ev 6 0]) :=
  ⟨c1_capacity_and_fifo_eviction.1 c1plFive [c1ev 6 0] (by decide),
   c1_capacity_and_fifo_eviction.2.1 c1plFive (c1ev 6 0) (by decide) (by decide)⟩

/-- **C6.** `get_valid_percentage` returns the number of retained
records with `failure = false` divided by the total number of retained
records, a value in `[0, 1]`; on an empty list it returns exactly 1, and
on a list of 5 records of which 2 are failures it returns 3/5 = 0.6. -/
theorem c6_valid_percentage (pl : PingList) :
    0 ≤ pl.get_valid_percentage
  ∧ pl.get_valid_percentage ≤ 1
  ∧ (pl.pings = [] → pl.get_valid_percentage = 1)
  ∧ (pl.pings ≠ [] →
       pl.get_valid_percentage =
         ((pl.pings.countP fun p => !p.failure : ℕ) : ℚ) / (pl.pings.length : ℚ))
  ∧ (pl.pings.length = 5 → pl.pings.countP (fun p => p.failure) = 2 →
       pl.get_valid_percentage = 3/5) := by
  have hle : pl.pings.countP (fun p => !p.failure) ≤ pl.pings.length :=
    List.countP_le_length _
  refine ⟨?_, ?_, ?_, ?_, ?_⟩
  · rw [PingList.get_valid_percentage]
    by_cases h : pl.pings.length = 0
    · rw [if_pos h]; norm_num
    · rw [if_neg h]
      apply div_nonneg (by positivity) (by positivity)
  · rw [PingList.get_valid_percentage]
    by_cases h : pl.pings.length = 0
    · rw [if_pos h]
    · rw [if_neg h]
      rw [div_le_one (by positivity)]
      exact_mod_cast hle
  · intro h
    rw [PingList.get_valid_percentage, if_pos (by rw [h]; rfl)]
  · intro h
    rw [PingList.get_valid_percentage, if_neg (by simpa using h)]
  · intro hlen hfail
    have hval : pl.pings.countP (fun p => !p.failure) = 3 := by
      have := PingList.countP_bnot_add_countP (fun p => p.failure) pl.pings
      omega
    rw [PingList.get_valid_percentage, if_neg (by omega), hval, hlen]
    norm_num

def c6ev (n : Nat) (fail : Bool) : PingEvent :=
  { event_uuid := toString n, timestamp := 0, ping := 10, failure := fail }

def c6plFive : PingList :=
  { pings := [c6ev 1 false, c6ev 2 true, c6ev 3 false, c6ev 4 true, c6ev 5 false],
    target := 7 }

def c6plEmpty : PingList := { pings := [], target := 7 }

theorem c6_valid_percentage_witness :
    c6plFive.get_valid_percentage = 3/5 ∧ c6plEmpty.get_valid_percentage = 1 :=
  ⟨(c6_valid_percentage c6plFive).2.2.2.2 (by decide) (by decide),
   (c6_valid_percentage c6plEmpty).2.2.1 rfl⟩

/-- **C7.** Inserting a `PingEvent` whose `event_uuid` already occurs in
the list leaves the `PingList` completely unchanged (same records, same
order, same length); consequently, starting from an empty list, no two
retained records ever share an identifier, and any list with pairwise
distinct identifiers keeps that property across calls. -/
theorem c7_dedup_no_op :
    (∀ (pl : PingList) (e : PingEvent),
       (∃ x ∈ pl.pings, x.event_uuid = e.event_uuid) → pl.add_ping_event e = pl)
  ∧ (∀ (pl : PingList) (e : PingEvent),
       pl.pings.Pairwise (fun a b => a.event_uuid ≠ b.event_uuid) →
       (pl.add_ping_event e).pings.Pairwise fun a b => a.event_uuid ≠ b.event_uuid)
  ∧ (∀ (tgt : Ip) (evs : List PingEvent),
       ((evs.foldl PingList.add_ping_event { pings := [], target := tgt }).pings).Pairwise
         fun a b => a.event_uuid ≠ b.event_uuid) := by
  refine ⟨PingList.add_ping_event_of_dup, PingList.add_ping_event_pairwise, ?_⟩
  · intro tgt evs
    have aux : ∀ (evs : List PingEvent) (pl : PingList),
        pl.pings.Pairwise (fun a b => a.event_uuid ≠ b.event_uuid) →
        ((evs.foldl PingList.add_ping_event pl).pings).Pairwise
          (fun a b => a.event_uuid ≠ b.event_uuid) := by
      intro evs
      induction evs with
      | nil => intro pl h; exact h
      | cons e evs ih =>
        intro pl h
        exact ih _ (PingList.add_ping_event_pairwise pl e h)
    exact aux evs _ List.Pairwise.nil

def c7ev : PingEvent :=
  { event_uuid := "dup", timestamp := 99, ping := 3, failure := true }

def c7pl : PingList :=
  { pings := [{ event_uuid := "dup", timestamp := 1, ping := 2, failure := false }],
    target := 9 }

theorem c7_dedup_no_op_witness :
    c7pl.add_ping_event c7ev = c7pl ∧
    ((c7pl.add_ping_event c7ev).pings).Pairwise
      fun a b => a.event_uuid ≠ b.event_uuid :=
  ⟨c7_dedup_no_op.1 c7pl c7ev ⟨c7pl.pings.head (by decide), by decide⟩,
   c7_dedup_no_op.2.1 c7pl c7ev (List.pairwise_singleton _ _)⟩

/-- The configuration values `online_status.py` reads from `config.yml`:
the two target groups, the `no_restart` kill switch and the cooldown
`reset_delay` in minutes. -/
structure Config where
  localIps : List Ip
  globalIps : List Ip
  no_restart : Bool
  reset_delay : Int

/-- The history `PingList.load` yields for `ip`: the parsed list when
the persisted file is well-formed, a fresh empty list otherwise. -/
def histOf (s : Store) (ip : Ip) : PingList :=
  match s.cur ip with
  | .good pl => pl
  | _ => { pings := [], target := ip }

/-- One group loop of `get_failed_ips`: load each target's list
(threading the file-system state, since `load` may move corrupt files
aside) and collect, in order, the targets whose valid percentage is
strictly below `0.5`. -/
def get_failed_ips_group (ips : List Ip) (now : Int) (s : Store) : List Ip × Store :=
  match ips with
  | [] => ([], s)
  | ip :: rest =>
    let loaded := load ip now s
    let next := get_failed_ips_group rest now loaded.2
    (if loaded.1.get_valid_percentage < 1/2 then ip :: next.1 else next.1, next.2)

/-- `get_failed_ips`: failing local targets, then failing global
targets. -/
def get_failed_ips (cfg : Config) (now : Int) (s : Store) : (List Ip × List Ip) × Store :=
  let locRes := get_failed_ips_group cfg.localIps now s
  let globRes := get_failed_ips_group cfg.globalIps now locRes.2
  ((locRes.1, globRes.1), globRes.2)

/-- The escalation decision of the `__main__` block: `reset_opnsense` is
reached iff one of the three `if` conditions holds.  `0.5 * len(...)`
is exact in IEEE doubles for list lengths, so the float comparison is
embedded over `ℚ`. -/
def main_should_remediate (cfg : Config) (now : Int) (s : Store) : Bool :=
  let failed := (get_failed_ips cfg now s).1
  (decide (0 < failed.2.length) && decide (0 < failed.1.length))
    || decide ((1/2 : ℚ) * (cfg.globalIps.length : ℚ) < (failed.2.length : ℚ))
    || decide ((1/2 : ℚ) * (cfg.localIps.length : ℚ) < (failed.1.length : ℚ))

/-- Content of `lastreset.json`: missing, not JSON-parsable, or a stored
epoch timestamp. -/
inductive LastReset where
  | absent
  | corrupt
  | value (t : Int)
deriving DecidableEq

/-- The state `reset_opnsense` reads and writes: `lastreset.json` plus
the per-target history files. -/
structure SysState where
  lastReset : LastReset
  store : Store

/-- How one `reset_opnsense` call ends. -/
inductive ResetOutcome where
  | disabled
  | cooldownSkip
  | actuatorFailed
  | remediated
deriving DecidableEq

/-- One loop of `clear_all_ips`: `PingList.clear` for each target in
order, propagating any uncaught exception. -/
def clear_group (ips : List Ip) (now : Int) (st : Store) : Except PyError Store :=
  match ips with
  | [] => .ok st
  | ip :: rest =>
    match clear ip now st with
    | .error e => .error e
    | .ok st1 => clear_group rest now st1

/-- `clear_all_ips`: clear the local group, then the global group. -/
def clear_all_ips (cfg : Config) (now : Int) (st : Store) : Except PyError Store :=
  match clear_group cfg.localIps now st with
  | .error e => .error e
  | .ok st1 => clear_group cfg.globalIps now st1

/-- `reset_opnsense`.  The returned `Bool` records whether the HTTP POST
to the redfish actuator was issued; `status` is the response status code
and the source treats `status_code > 299` as failure.  All
`datetime.now()` readings during the one call are embedded as the single
instant `now`, and the persisted epoch timestamps as integer seconds
(`reset_delay` is in minutes, hence the factor 60 from
`timedelta(minutes=...)`). -/
def reset_opnsense (cfg : Config) (now : Int) (status : Nat) (s : SysState) :
    Bool × Except PyError (ResetOutcome × SysState) :=
  if cfg.no_restart then (false, .ok (.disabled, s))
  else
    let blocked :=
      match s.lastReset with
      | .value t => decide (now - t < cfg.reset_delay * 60)
      | _ => false
    if blocked then (false, .ok (.cooldownSkip, s))
    else
      (true,
        if 299 < status then .ok (.actuatorFailed, s)
        else
          match clear_all_ips cfg now s.store with
          | .error e => .error e
          | .ok st2 => .ok (.remediated, { lastReset := .value now, store := st2 }))

/-- `PingList.add_ping`.  In Python the default of the `timestamp`
parameter, `datetime.now()`, is evaluated exactly once — when the `def`
statement in the class body runs at module import.  `importTime` stands
for the value that single evaluation produced; a call that omits the
argument (`timestamp = none`) therefore records `importTime`, never the
current time of the call.  `uuid` is the identifier `uuid4().hex`
generates for the new event. -/
def add_ping (importTime : Int) (pl : PingList) (uuid : String)
    (failure : Bool) (latency : ℚ) (timestamp : Option Int) : PingList :=
  pl.add_ping_event
    { event_uuid := uuid, timestamp := timestamp.getD importTime,
      ping := latency, failure := failure }

/-- `check_ip`: load the target's list, record the probe result via
`add_ping` — omitting the `timestamp` argument — and save.  `now` is the
wall-clock instant of the call (it reaches only `load`'s backup naming);
`probeFailed`/`probeLatency` are the `ping_wrapper` result. -/
def check_ip (importTime : Int) (uuid : String) (now : Int) (ip : Ip)
    (probeFailed : Bool) (probeLatency : ℚ) (s : Store) : Store :=
  let loaded := load ip now s
  let pl2 := add_ping importTime loaded.1 uuid probeFailed probeLatency none
  save pl2 loaded.2

/-- **C8.** For every target, `load` returns the persisted history when
a well-formed one exists, a fresh empty history when none exists, and —
when the persisted data is malformed — moves the unreadable file to a
backup name suffixed with the current timestamp and returns a fresh
empty history.  Both exception paths (`FileNotFoundError`,
`ValueError`) are caught in the source, so `load` is total (its Lean
embedding returns a plain pair, not an `Except`): it raises no error to
the caller in any of the three cases. -/
theorem c8_load_never_fails (ip : Ip) (now : Int) (s : Store) :
    (∀ pl, s.cur ip = .good pl → load ip now s = (pl, s))
  ∧ (s.cur ip = .absent → load ip now s = ({ pings := [], target := ip }, s))
  ∧ (∀ raw, s.cur ip = .corrupt raw →
       (load ip now s).1 = { pings := [], target := ip }
     ∧ (load ip now s).2.cur ip = .absent
     ∧ (load ip now s).2.backups ip = (now, .corrupt raw) :: s.backups ip
     ∧ ∀ jp, jp ≠ ip →
         (load ip now s).2.cur jp = s.cur jp
       ∧ (load ip now s).2.backups jp = s.backups jp) := by
  refine ⟨?_, ?_, ?_⟩
  · intro pl h
    simp only [load, openAndParse, h]
  · intro h
    simp only [load, openAndParse, h]
  · intro raw h
    refine ⟨?_, ?_, ?_, ?_⟩
    · simp only [load, openAndParse, h]
    · simp [load, openAndParse, h, moveToBackup]
    · simp [load, openAndParse, h, moveToBackup]
    · intro jp hjp
      constructor <;> simp [load, openAndParse, h, moveToBackup, hjp]

def c8pl : PingList :=
  { pings := [{ event_uuid := "w", timestamp := 4, ping := 2, failure := false }],
    target := 6 }

def c8sGood : Store := { cur := fun _ => .good c8pl, backups := fun _ => [] }

def c8sCorrupt : Store := { cur := fun _ => .corrupt "oops", backups := fun _ => [] }

theorem c8_load_never_fails_witness :
    load 6 11 c8sGood = (c8pl, c8sGood)
  ∧ (load 6 11 c8sCorrupt).1 = { pings := [], target := 6 }
  ∧ (load 6 11 c8sCorrupt).2.cur 6 = .absent
  ∧ (load 6 11 c8sCorrupt).2.backups 6 = [(11, .corrupt "oops")] :=
  ⟨(c8_load_never_fails 6 11 c8sGood).1 c8pl rfl,
   ((c8_load_never_fails 6 11 c8sCorrupt).2.2 "oops" rfl).1,
   ((c8_load_never_fails 6 11 c8sCorrupt).2.2 "oops" rfl).2.1,
   ((c8_load_never_fails 6 11 c8sCorrupt).2.2 "oops" rfl).2.2.1⟩

def c9sAbsent : Store := { cur := fun _ => .absent, backups := fun _ => [] }

/-- **C9 counterexample.**  The claim states that `clear` never raises a
fatal error to the caller, *including when no persisted file exists for
the target*.  On the code, when `<ip>.json` does not exist, `load`
returns an empty list but the subsequent `shutil.move` raises an
uncaught `FileNotFoundError`. -/
theorem c9_clear_raises_on_missing_file :
    clear 3 100 c9sAbsent = .error .fileNotFound := rfl

/-- **C9 (amended).**  `clear` loads the history, empties it, backs up
the pre-clear persisted file under a timestamped name and persists the
emptied history — leaving a timestamped backup — *when a well-formed
persisted file exists*.  When no persisted file exists, or when the file
was malformed (so `load` has already moved it aside), the backup move
(`shutil.move`) raises an uncaught `FileNotFoundError` to the caller. -/
theorem c9_clear_behaviour (ip : Ip) (now : Int) (s : Store) :
    (∀ pl, s.cur ip = .good pl →
       ∃ s2, clear ip now s = .ok s2
         ∧ s2.cur pl.target = .good { pl with pings := [] }
         ∧ s2.backups ip = (now, .good pl) :: s.backups ip)
  ∧ (s.cur ip = .absent → clear ip now s = .error .fileNotFound)
  ∧ (∀ raw, s.cur ip = .corrupt raw → clear ip now s = .error .fileNotFound) := by
  refine ⟨?_, ?_, ?_⟩
  · intro pl h
    refine ⟨save { pl with pings := [] } (moveToBackup ip now s), ?_, ?_, ?_⟩
    · simp only [clear, load, openAndParse, h]
    · simp [save]
    · simp [save, moveToBackup, h]
  · intro h
    simp only [clear, load, openAndParse, h]
  · intro raw h
    simp only [clear, load, openAndParse, h, moveToBackup]
    simp

def c9pl : PingList :=
  { pings := [{ event_uuid := "z", timestamp := 8, ping := 1, failure := true }],
    target := 3 }

def c9sGood : Store := { cur := fun _ => .good c9pl, backups := fun _ => [] }

theorem c9_clear_behaviour_witness :
    (∃ s2, clear 3 100 c9sGood = .ok s2
       ∧ s2.cur c9pl.target = .good { c9pl with pings := [] }
       ∧ s2.backups 3 = (100, .good c9pl) :: c9sGood.backups 3)
  ∧ clear 3 100 c9sAbsent = .error .fileNotFound :=
  ⟨(c9_clear_behaviour 3 100 c9sGood).1 c9pl rfl,
   (c9_clear_behaviour 3 100 c9sAbsent).2.1 rfl⟩

theorem load_fst (ip : Ip) (now : Int) (s : Store) :
    (load ip now s).1 = histOf s ip := by
  cases h : s.cur ip <;> simp [load, openAndParse, histOf, h]

/-- A `load` may move a corrupt file aside, but the history every target
presents afterwards is unchanged (a corrupt file already presented as an
empty history). -/
theorem histOf_load_snd (ip jp : Ip) (now : Int) (s : Store) :
    histOf (load ip now s).2 jp = histOf s jp := by
  cases h : s.cur ip with
  | absent => simp [load, openAndParse, h]
  | good pl => simp [load, openAndParse, h]
  | corrupt raw =>
    simp only [load, openAndParse, h]
    by_cases hj : jp = ip
    · subst hj
      simp [histOf, moveToBackup, h]
    · simp [histOf, moveToBackup, hj]

theorem histOf_get_failed_ips_group_snd (ips : List Ip) (now : Int) (s : Store) (jp : Ip) :
    histOf (get_failed_ips_group ips now s).2 jp = histOf s jp := by
  induction ips generalizing s with
  | nil => rfl
  | cons ip rest ih =>
    simp only [get_failed_ips_group]
    rw [ih, histOf_load_snd]

theorem get_failed_ips_group_fst (ips : List Ip) (now : Int) (s : Store) :
    (get_failed_ips_group ips now s).1 =
      ips.filter fun ip => decide ((histOf s ip).get_valid_percentage < 1/2) := by
  induction ips generalizing s with
  | nil => rfl
  | cons ip rest ih =>
    simp only [get_failed_ips_group, List.filter_cons, load_fst]
    rw [ih]
    have hrest : (rest.filter fun jp =>
          decide ((histOf (load ip now s).2 jp).get_valid_percentage < 1/2))
        = rest.filter fun jp => decide ((histOf s jp).get_valid_percentage < 1/2) :=
      List.filter_congr fun jp _ => by rw [histOf_load_snd]
    rw [hrest]
    by_cases hc : (histOf s ip).get_valid_percentage < 1/2
    · rw [if_pos hc, if_pos (by exact decide_eq_true hc)]
    · rw [if_neg hc, if_neg (by simpa using hc)]

theorem half_lt_iff (a b : ℕ) : ((1/2 : ℚ) * (a : ℚ) < (b : ℚ)) ↔ a < 2 * b := by
  constructor
  · intro h
    have h2 : (a : ℚ) < 2 * (b : ℚ) := by linarith
    exact_mod_cast h2
  · intro h
    have h2 : (a : ℚ) < ((2 * b : ℕ) : ℚ) := by exact_mod_cast h
    push_cast at h2
    linarith

/-- **C2.** With local target list `L` and global target list `G`, the
main block decides to remediate iff at least one of the three rules
holds, where a target is *failing* iff the valid percentage of the
history its file presents is strictly below `0.5`: (1) some failing
local target and some failing global target; (2) the failing global
count exceeds 50% of `|G|`; (3) the failing local count exceeds 50% of
`|L|`.  An empty group contributes zero failing targets and alone never
satisfies its majority rule. -/
theorem c2_escalation_decision (cfg : Config) (now : Int) (s : Store) :
    (main_should_remediate cfg now s = true ↔
       ((∃ ip ∈ cfg.localIps, (histOf s ip).get_valid_percentage < 1/2)
          ∧ ∃ ip ∈ cfg.globalIps, (histOf s ip).get_valid_percentage < 1/2)
       ∨ cfg.globalIps.length <
           2 * cfg.globalIps.countP (fun ip => decide ((histOf s ip).get_valid_percentage < 1/2))
       ∨ cfg.localIps.length <
           2 * cfg.localIps.countP (fun ip => decide ((histOf s ip).get_valid_percentage < 1/2)))
  ∧ (cfg.globalIps = [] →
       cfg.globalIps.countP (fun ip => decide ((histOf s ip).get_valid_percentage < 1/2)) = 0
     ∧ ¬ cfg.globalIps.length <
           2 * cfg.globalIps.countP (fun ip => decide ((histOf s ip).get_valid_percentage < 1/2)))
  ∧ (cfg.localIps = [] →
       cfg.localIps.countP (fun ip => decide ((histOf s ip).get_valid_percentage < 1/2)) = 0
     ∧ ¬ cfg.localIps.length <
           2 * cfg.localIps.countP (fun ip => decide ((histOf s ip).get_valid_percentage < 1/2))) := by
  refine ⟨?_, ?_, ?_⟩
  · have hloc : ((get_failed_ips cfg now s).1).1 =
        cfg.localIps.filter fun ip => decide ((histOf s ip).get_valid_percentage < 1/2) := by
      simp only [get_failed_ips]
      rw [get_failed_ips_group_fst]
    have hglob : ((get_failed_ips cfg now s).1).2 =
        cfg.globalIps.filter fun ip => decide ((histOf s ip).get_valid_percentage < 1/2) := by
      simp only [get_failed_ips]
      rw [get_failed_ips_group_fst]
      exact List.filter_congr fun jp _ => by rw [histOf_get_failed_ips_group_snd]
    simp only [main_should_remediate, hloc, hglob, Bool.or_eq_true, Bool.and_eq_true,
      decide_eq_true_eq]
    rw [← List.countP_eq_length_filter, ← List.countP_eq_length_filter, half_lt_iff, half_lt_iff]
    constructor
    · rintro ((h1 | h2) | h3)
      · refine Or.inl ⟨?_, ?_⟩
        · have := h1.2
          rw [List.countP_pos_iff] at this
          obtain ⟨ip, hip, hp⟩ := this
          exact ⟨ip, hip, of_decide_eq_true hp⟩
        · have := h1.1
          rw [List.countP_pos_iff] at this
          obtain ⟨ip, hip, hp⟩ := this
          exact ⟨ip, hip, of_decide_eq_true hp⟩
      · exact Or.inr (Or.inl h2)
      · exact Or.inr (Or.inr h3)
    · rintro (⟨⟨ipl, hipl, hpl⟩, ⟨ipg, hipg, hpg⟩⟩ | h2 | h3)
      · refine Or.inl (Or.inl ⟨?_, ?_⟩)
        · rw [List.countP_pos_iff]
          exact ⟨ipg, hipg, decide_eq_true hpg⟩
        · rw [List.countP_pos_iff]
          exact ⟨ipl, hipl, decide_eq_true hpl⟩
      · exact Or.inl (Or.inr h2)
      · exact Or.inr h3
  · intro h
    rw [h]
    exact ⟨rfl, by simp⟩
  · intro h
    rw [h]
    exact ⟨rfl, by simp⟩

def c2plBad : PingList :=
  { pings := [{ event_uuid := "b", timestamp := 0, ping := 9999999, failure := true }],
    target := 0 }

def c2store : Store := { cur := fun _ => .good c2plBad, backups := fun _ => [] }

def c2cfg : Config :=
  { localIps := [1, 2], globalIps := [3, 4], no_restart := false, reset_delay := 30 }

theorem c2_escalation_decision_witness :
    main_should_remediate c2cfg 0 c2store = true :=
  (c2_escalation_decision c2cfg 0 c2store).1.mpr
    (Or.inl ⟨⟨1, by decide,
        by norm_num [histOf, c2store, c2plBad, PingList.get_valid_percentage]⟩,
      ⟨3, by decide,
        by norm_num [histOf, c2store, c2plBad, PingList.get_valid_percentage]⟩⟩)


/-- When remediation is enabled and no cooldown blocks (the persisted
timestamp is missing, unparsable, or old enough), `reset_opnsense`
issues the actuator call and proceeds to the status check. -/
theorem reset_opnsense_pass (cfg : Config) (now : Int) (status : Nat) (s : SysState)
    (hnr : cfg.no_restart = false)
    (hgate : ∀ t, s.lastReset = .value t → cfg.reset_delay * 60 ≤ now - t) :
    reset_opnsense cfg now status s =
      (true,
        if 299 < status then .ok (.actuatorFailed, s)
        else
          match clear_all_ips cfg now s.store with
          | .error e => .error e
          | .ok st2 => .ok (.remediated, { lastReset := .value now, store := st2 })) := by
  have hblocked : (match s.lastReset with
      | .value t => decide (now - t < cfg.reset_delay * 60)
      | _ => false) = false := by
    rcases hr : s.lastReset with _ | _ | t
    · rfl
    · rfl
    · simp only [decide_eq_false_iff_not, not_lt]
      exact hgate t hr
  rw [reset_opnsense, if_neg (by rw [hnr]; exact Bool.false_ne_true)]
  simp only [hblocked, Bool.false_eq_true, if_false]

/-- When remediation is enabled but the persisted timestamp is recent,
`reset_opnsense` returns before issuing the actuator call, leaving all
state unchanged. -/
theorem reset_opnsense_cooldown (cfg : Config) (now : Int) (status : Nat) (s : SysState)
    (t : Int) (hnr : cfg.no_restart = false) (ht : s.lastReset = .value t)
    (hc : now - t < cfg.reset_delay * 60) :
    reset_opnsense cfg now status s = (false, .ok (.cooldownSkip, s)) := by
  rw [reset_opnsense, if_neg (by rw [hnr]; exact Bool.false_ne_true)]
  simp only [ht, decide_eq_true_eq]
  rw [if_pos hc]

/-- A remediated outcome always carries `lastReset = now`. -/
theorem reset_opnsense_remediated_lastReset (cfg : Config) (now : Int) (status : Nat)
    (s s2 : SysState) (hnr : cfg.no_restart = false)
    (h2 : (reset_opnsense cfg now status s).2 = .ok (.remediated, s2)) :
    s2.lastReset = .value now := by
  by_cases hb : ∃ t, s.lastReset = .value t ∧ now - t < cfg.reset_delay * 60
  · obtain ⟨t, ht, hc⟩ := hb
    rw [reset_opnsense_cooldown cfg now status s t hnr ht hc] at h2
    simp at h2
  · push_neg at hb
    rw [reset_opnsense_pass cfg now status s hnr
      (fun t ht => by have := hb t ht; omega)] at h2
    by_cases hs : 299 < status
    · rw [if_pos hs] at h2
      simp at h2
    · rw [if_neg hs] at h2
      rcases hca : clear_all_ips cfg now s.store with e | st2 <;> rw [hca] at h2
      · simp at h2
      · have h3 : (Except.ok (ResetOutcome.remediated,
            ({ lastReset := .value now, store := st2 } : SysState)) :
            Except PyError (ResetOutcome × SysState)) = .ok (.remediated, s2) := h2
        injection h3 with h4
        rw [← (Prod.mk.injEq _ _ _ _).mp h4 |>.2]

/-- **C3.** With remediation not disabled by configuration
(`no_restart = false`), `reset_opnsense` issues the actuator call iff no
valid persisted `lastreset` timestamp exists (file absent or not
JSON-parsable) or the elapsed time since it is at least the configured
cooldown (`reset_delay` minutes); when the elapsed time is shorter it
returns without issuing the call and without touching any state, so a
call that remediates at `now` suppresses the actuator for every later
call within the cooldown window — at most one remediation per window. -/
theorem c3_cooldown_gate (cfg : Config) (now : Int) (status : Nat) (s : SysState)
    (hnr : cfg.no_restart = false) :
    ((reset_opnsense cfg now status s).1 = true ↔
       s.lastReset = .absent ∨ s.lastReset = .corrupt ∨
         ∃ t, s.lastReset = .value t ∧ cfg.reset_delay * 60 ≤ now - t)
  ∧ (∀ t, s.lastReset = .value t → now - t < cfg.reset_delay * 60 →
       reset_opnsense cfg now status s = (false, .ok (.cooldownSkip, s)))
  ∧ (∀ s2 now2 status2, (reset_opnsense cfg now status s).2 = .ok (.remediated, s2) →
       now2 - now < cfg.reset_delay * 60 →
       (reset_opnsense cfg now2 status2 s2).1 = false) := by
  refine ⟨?_, ?_, ?_⟩
  · constructor
    · intro h1
      by_contra hcon
      push_neg at hcon
      obtain ⟨ha, hc, hv⟩ := hcon
      rcases hr : s.lastReset with _ | _ | t
      · exact ha hr
      · exact hc hr
      · have hlt : now - t < cfg.reset_delay * 60 := by
          have := hv t
          rw [hr] at this
          have := this rfl
          omega
        rw [reset_opnsense_cooldown cfg now status s t hnr hr hlt] at h1
        simp at h1
    · intro hg
      have hgate : ∀ t, s.lastReset = .value t → cfg.reset_delay * 60 ≤ now - t := by
        intro t ht
        rcases hg with ha | hc | ⟨t2, ht2, hle⟩
        · rw [ht] at ha
          exact absurd ha (by simp)
        · rw [ht] at hc
          exact absurd hc (by simp)
        · rw [ht] at ht2
          rw [LastReset.value.injEq] at ht2
          omega
      rw [reset_opnsense_pass cfg now status s hnr hgate]
  · intro t ht hc
    exact reset_opnsense_cooldown cfg now status s t hnr ht hc
  · intro s2 now2 status2 h2 hwin
    have hv := reset_opnsense_remediated_lastReset cfg now status s s2 hnr h2
    rw [reset_opnsense_cooldown cfg now2 status2 s2 now hnr hv (by omega)]

def c3cfg : Config :=
  { localIps := [], globalIps := [], no_restart := false, reset_delay := 30 }

def c3s : SysState :=
  { lastReset := .value 0,
    store := { cur := fun _ => .absent, backups := fun _ => [] } }

theorem c3_cooldown_gate_witness :
    reset_opnsense c3cfg 100 200 c3s = (false, .ok (.cooldownSkip, c3s)) :=
  (c3_cooldown_gate c3cfg 100 200 c3s rfl).2.1 0 rfl (by decide)

theorem clear_of_good (ip : Ip) (now : Int) (st : Store) (pl : PingList)
    (h : st.cur ip = .good pl) :
    clear ip now st = .ok (save { pl with pings := [] } (moveToBackup ip now st)) := by
  simp only [clear, load, openAndParse, h]

/-- Running `PingList.clear` over a list of targets whose files are all
well-formed succeeds, leaves every listed target's file empty, pushes a
timestamped backup of each pre-clear file, does not touch other
targets, and never discards an existing backup. -/
theorem clear_group_ok (ips : List Ip) (now : Int) (st : Store)
    (hpre : ∀ ip ∈ ips, ∃ pl, st.cur ip = .good pl ∧ pl.target = ip) :
    ∃ st2, clear_group ips now st = .ok st2
      ∧ (∀ ip ∈ ips, st2.cur ip = .good { pings := [], target := ip })
      ∧ (∀ ip ∈ ips, (now, st.cur ip) ∈ st2.backups ip)
      ∧ (∀ ip, ip ∉ ips → st2.cur ip = st.cur ip ∧ st2.backups ip = st.backups ip)
      ∧ (∀ ip e, e ∈ st.backups ip → e ∈ st2.backups ip) := by
  induction ips generalizing st with
  | nil =>
    exact ⟨st, rfl, by simp, by simp, fun ip _ => ⟨rfl, rfl⟩, fun ip e he => he⟩
  | cons ip rest ih =>
    obtain ⟨pl, hgood, htgt⟩ := hpre ip (List.mem_cons_self _ _)
    have hclear := clear_of_good ip now st pl hgood
    have hcur1 : (save { pl with pings := [] } (moveToBackup ip now st)).cur ip =
        .good { pings := [], target := ip } := by
      simp [save, moveToBackup, htgt]
    have hback1 : (save { pl with pings := [] } (moveToBackup ip now st)).backups ip =
        (now, st.cur ip) :: st.backups ip := by
      simp [save, moveToBackup]
    have hother1 : ∀ jp, jp ≠ ip →
        (save { pl with pings := [] } (moveToBackup ip now st)).cur jp = st.cur jp
      ∧ (save { pl with pings := [] } (moveToBackup ip now st)).backups jp = st.backups jp := by
      intro jp hj
      constructor <;> simp [save, moveToBackup, htgt, hj]
    have hmono1 : ∀ jp e, e ∈ st.backups jp →
        e ∈ (save { pl with pings := [] } (moveToBackup ip now st)).backups jp := by
      intro jp e he
      by_cases hj : jp = ip
      · subst hj
        rw [hback1]
        exact List.mem_cons_of_mem _ he
      · rw [(hother1 jp hj).2]
        exact he
    have hpre1 : ∀ jp ∈ rest,
        ∃ pl2, (save { pl with pings := [] } (moveToBackup ip now st)).cur jp = .good pl2
          ∧ pl2.target = jp := by
      intro jp hjp
      by_cases hj : jp = ip
      · subst hj
        exact ⟨{ pings := [], target := jp }, hcur1, rfl⟩
      · obtain ⟨pl2, h2, ht2⟩ := hpre jp (List.mem_cons_of_mem _ hjp)
        exact ⟨pl2, by rw [(hother1 jp hj).1]; exact h2, ht2⟩
    obtain ⟨st2, hrun, hcur2, hback2, hout2, hmono2⟩ := ih _ hpre1
    refine ⟨st2, ?_, ?_, ?_, ?_, ?_⟩
    · simp only [clear_group, hclear]
      exact hrun
    · intro jp hjp
      by_cases hr : jp ∈ rest
      · exact hcur2 jp hr
      · have hj : jp = ip := by
          rcases List.mem_cons.mp hjp with h | h
          · exact h
          · exact absurd h hr
        subst hj
        rw [(hout2 jp hr).1]
        exact hcur1
    · intro jp hjp
      by_cases hj : jp = ip
      · subst hj
        apply hmono2
        rw [hback1]
        exact List.mem_cons_self _ _
      · have hr : jp ∈ rest := by
          rcases List.mem_cons.mp hjp with h | h
          · exact absurd h hj
          · exact h
        have := hback2 jp hr
        rw [(hother1 jp hj).1] at this
        exact this
    · intro jp hjp
      have hj : jp ≠ ip := fun h => hjp (h ▸ List.mem_cons_self _ _)
      have hr : jp ∉ rest := fun h => hjp (List.mem_cons_of_mem _ h)
      have h2 := hout2 jp hr
      have h1 := hother1 jp hj
      exact ⟨h2.1.trans h1.1, h2.2.trans h1.2⟩
    · intro jp e he
      exact hmono2 jp e (hmono1 jp e he)

theorem clear_all_ips_ok (cfg : Config) (now : Int) (st : Store)
    (hpre : ∀ ip ∈ cfg.localIps ++ cfg.globalIps,
       ∃ pl, st.cur ip = .good pl ∧ pl.target = ip) :
    ∃ st2, clear_all_ips cfg now st = .ok st2
      ∧ ∀ ip ∈ cfg.localIps ++ cfg.globalIps,
          st2.cur ip = .good { pings := [], target := ip }
        ∧ (now, st.cur ip) ∈ st2.backups ip := by
  obtain ⟨st1, h1, hcur1, hback1, hout1, hmono1⟩ :=
    clear_group_ok cfg.localIps now st (fun ip hip => hpre ip (List.mem_append_left _ hip))
  have hpre2 : ∀ ip ∈ cfg.globalIps, ∃ pl, st1.cur ip = .good pl ∧ pl.target = ip := by
    intro ip hip
    by_cases hl : ip ∈ cfg.localIps
    · exact ⟨_, hcur1 ip hl, rfl⟩
    · obtain ⟨pl, hg, ht⟩ := hpre ip (List.mem_append_right _ hip)
      exact ⟨pl, by rw [(hout1 ip hl).1]; exact hg, ht⟩
  obtain ⟨st2, h2, hcur2, hback2, hout2, hmono2⟩ := clear_group_ok cfg.globalIps now st1 hpre2
  refine ⟨st2, ?_, ?_⟩
  · simp only [clear_all_ips, h1]
    exact h2
  · intro ip hip
    rcases List.mem_append.mp hip with hl | hg
    · by_cases hgm : ip ∈ cfg.globalIps
      · exact ⟨hcur2 ip hgm, hmono2 ip _ (hback1 ip hl)⟩
      · exact ⟨by rw [(hout2 ip hgm).1]; exact hcur1 ip hl, hmono2 ip _ (hback1 ip hl)⟩
    · refine ⟨hcur2 ip hg, ?_⟩
      by_cases hl : ip ∈ cfg.localIps
      · exact hmono2 ip _ (hback1 ip hl)
      · have := hback2 ip hg
        rw [(hout1 ip hl).1] at this
        exact this

/-- **C4.** When the gate is open (remediation enabled, cooldown
elapsed or no valid timestamp) and the actuator call succeeds
(`status ≤ 299`), `reset_opnsense` clears the history of every
configured target in both groups — leaving each persisted history empty
and a timestamped backup of the pre-clear file — and persists
`lastreset` equal to the remediation time `now`. -/
theorem c4_success_clears_and_stamps (cfg : Config) (now : Int) (status : Nat) (s : SysState)
    (hnr : cfg.no_restart = false)
    (hgate : ∀ t, s.lastReset = .value t → cfg.reset_delay * 60 ≤ now - t)
    (hok : status ≤ 299)
    (hfiles : ∀ ip ∈ cfg.localIps ++ cfg.globalIps,
       ∃ pl, s.store.cur ip = .good pl ∧ pl.target = ip) :
    (reset_opnsense cfg now status s).1 = true
  ∧ ∃ s2, (reset_opnsense cfg now status s).2 = .ok (.remediated, s2)
      ∧ s2.lastReset = .value now
      ∧ ∀ ip ∈ cfg.localIps ++ cfg.globalIps,
          s2.store.cur ip = .good { pings := [], target := ip }
        ∧ (now, s.store.cur ip) ∈ s2.store.backups ip := by
  obtain ⟨st2, hca, hpost⟩ := clear_all_ips_ok cfg now s.store hfiles
  rw [reset_opnsense_pass cfg now status s hnr hgate]
  refine ⟨rfl, ⟨{ lastReset := .value now, store := st2 }, ?_, rfl, hpost⟩⟩
  rw [if_neg (by omega)]
  simp only [hca]

def c4cfg : Config :=
  { localIps := [1], globalIps := [2], no_restart := false, reset_delay := 30 }

def c4s : SysState :=
  { lastReset := .absent,
    store := { cur := fun j => .good { pings := [], target := j },
               backups := fun _ => [] } }

theorem c4_success_clears_and_stamps_witness :
    (reset_opnsense c4cfg 5 200 c4s).1 = true
  ∧ ∃ s2, (reset_opnsense c4cfg 5 200 c4s).2 = .ok (.remediated, s2)
      ∧ s2.lastReset = .value 5
      ∧ ∀ ip ∈ c4cfg.localIps ++ c4cfg.globalIps,
          s2.store.cur ip = .good { pings := [], target := ip }
        ∧ (5, c4s.store.cur ip) ∈ s2.store.backups ip :=
  c4_success_clears_and_stamps c4cfg 5 200 c4s rfl
    (fun t ht => by simp [c4s] at ht) (by decide)
    (fun ip _ => ⟨{ pings := [], target := ip }, rfl, rfl⟩)

def c5cfg : Config :=
  { localIps := [], globalIps := [], no_restart := false, reset_delay := 30 }

def c5store : Store := { cur := fun _ => .absent, backups := fun _ => [] }

def c5s : SysState := { lastReset := .absent, store := c5store }

/-- **C5 counterexample.**  The claim states that success is exactly the
HTTP 2xx-equivalent outcomes and every other response is treated as
failure.  With status code 100 — not in the 2xx class — the source takes
the success branch (`status_code > 299` is false): it clears the
histories and persists a fresh `lastreset` timestamp instead of leaving
the state unchanged. -/
theorem c5_status100_not_failure :
    ¬ (200 ≤ 100 ∧ 100 ≤ 299)
  ∧ (reset_opnsense c5cfg 77 100 c5s).2 =
      .ok (.remediated, { lastReset := .value 77, store := c5store }) :=
  ⟨by decide, rfl⟩

/-- **C5 (amended).**  When the gate is open and the actuator responds
with `status > 299`, the gate treats it as failure: `lastreset` is not
written and no history is cleared — the state comes back unchanged, so
the next cycle retries unaffected by cooldown.  The source's success
test is `status_code ≤ 299`, which admits every code up to 299 (all of
2xx, but also the sub-200 informational codes), and every response with
`status > 299` is treated as failure. -/
theorem c5_failure_leaves_state (cfg : Config) (now : Int) (status : Nat) (s : SysState)
    (hnr : cfg.no_restart = false)
    (hgate : ∀ t, s.lastReset = .value t → cfg.reset_delay * 60 ≤ now - t)
    (hfail : 299 < status) :
    reset_opnsense cfg now status s = (true, .ok (.actuatorFailed, s)) := by
  rw [reset_opnsense_pass cfg now status s hnr hgate, if_pos hfail]

theorem c5_failure_leaves_state_witness :
    reset_opnsense c5cfg 7 500 c5s = (true, .ok (.actuatorFailed, c5s)) :=
  c5_failure_leaves_state c5cfg 7 500 c5s rfl
    (fun t ht => by simp [c5s] at ht) (by decide)

theorem add_ping_event_target (pl : PingList) (e : PingEvent) :
    (pl.add_ping_event e).target = pl.target := by
  rw [PingList.add_ping_event]
  split <;> rfl

/-- **C10.** The default value of `add_ping`'s `timestamp` parameter is
evaluated exactly once, when the class body is executed at module
import; every call omitting the argument — including every call made by
`check_ip` — therefore records a `PingEvent` carrying that same fixed
import-time timestamp (`importTime`), never the time of the call. -/
theorem c10_fixed_default_timestamp (importTime : Int) (uuid : String) (now : Int) (ip : Ip)
    (probeFailed : Bool) (probeLatency : ℚ) (s : Store)
    (hfresh : ∀ x ∈ (load ip now s).1.pings, x.event_uuid ≠ uuid) :
    ((add_ping importTime (load ip now s).1 uuid probeFailed probeLatency none).pings.getLast?
        = some { event_uuid := uuid, timestamp := importTime,
                 ping := probeLatency, failure := probeFailed })
  ∧ (∃ pl2, (check_ip importTime uuid now ip probeFailed probeLatency s).cur
        ((load ip now s).1.target) = .good pl2
      ∧ pl2.pings.getLast? = some { event_uuid := uuid, timestamp := importTime,
                                    ping := probeLatency, failure := probeFailed })
  ∧ (∀ callTime : Int, callTime ≠ importTime →
       Option.map PingEvent.timestamp
         ((add_ping importTime (load ip now s).1 uuid probeFailed
             probeLatency none).pings.getLast?)
         ≠ some callTime) := by
  have hlast : (add_ping importTime (load ip now s).1 uuid probeFailed
        probeLatency none).pings.getLast?
      = some { event_uuid := uuid, timestamp := importTime,
               ping := probeLatency, failure := probeFailed } := by
    rw [add_ping, PingList.add_ping_event_of_fresh _ _ hfresh, List.getLast?_concat,
      Option.getD_none]
  refine ⟨hlast, ?_, ?_⟩
  · refine ⟨add_ping importTime (load ip now s).1 uuid probeFailed probeLatency none,
      ?_, hlast⟩
    have htgt : (add_ping importTime (load ip now s).1 uuid probeFailed
        probeLatency none).target = (load ip now s).1.target := by
      rw [add_ping]
      exact add_ping_event_target _ _
    simp only [check_ip, save]
    rw [htgt, if_pos rfl]
  · intro callTime hne
    rw [hlast]
    simp only [Option.map_some']
    intro hcon
    injection hcon with h
    exact hne h.symm

def c10s : Store := { cur := fun _ => .absent, backups := fun _ => [] }

theorem c10_fixed_default_timestamp_witness :
    ((add_ping 1000 (load 3 2000 c10s).1 "u" true 5 none).pings.getLast?
        = some { event_uuid := "u", timestamp := 1000, ping := 5, failure := true })
  ∧ (∃ pl2, (check_ip 1000 "u" 2000 3 true 5 c10s).cur
        ((load 3 2000 c10s).1.target) = .good pl2
      ∧ pl2.pings.getLast?
          = some { event_uuid := "u", timestamp := 1000, ping := 5, failure := true }) :=
  ⟨(c10_fixed_default_timestamp 1000 "u" 2000 3 true 5 c10s (by decide)).1,
   (c10_fixed_default_timestamp 1000 "u" 2000 3 true 5 c10s (by decide)).2.1⟩
